import Mathlib

/-!
Verification of the `EmailConnector` inbound-message pipeline
(`human-agent-proxy/src/connectors/email/index.ts`).

The development shallowly embeds the connector's pure logic:

* `extractTaskId` — the subject-line correlation-identifier extractor,
  including its percent-decoding fallback and the five regex patterns it
  tries in priority order;
* `truncateChars` / `deliveredContent` — the body size safeguard;
* `processMessage` / `processNewEmails` — one scan pass of the message
  processor (callback invocation, error containment, read-flagging);
* `attemptReconnect` — the bounded reconnect loop;
* `mailOptions` / `objField` — the outbound envelope construction;
* `ConnectorState` / `stopEmailListener` / `Reachable` — the listener's
  mutable-field state machine.

JavaScript strings are modelled as Lean `String` / `List Char` (one element
per UTF-16 unit of the source; none of the verified properties depend on
surrogate pairs).  Thrown exceptions are modelled with `Option`/`Except` or,
for the caller-supplied callback, a `Bool` result (`false` = threw/rejected).
-/

/-! ## Character helpers -/

/-- ASCII lower-casing, as performed by the case-insensitive `i` regex flag
on the ASCII literals appearing in the connector's patterns. -/
def lowerChar (c : Char) : Char :=
  if 65 ≤ c.toNat && c.toNat ≤ 90 then Char.ofNat (c.toNat + 32) else c

/-- Case-insensitive character comparison used for the regex literals. -/
def ciEq (p c : Char) : Bool := lowerChar p == lowerChar c

/-- The JavaScript regex `\s` character class (also the class trimmed by
`String.prototype.trim`): tab, LF, VT, FF, CR, space, NBSP, Ogham space,
the U+2000–U+200A spaces, LS, PS, NNBSP, MMSP, ideographic space, BOM. -/
def isJsWS (c : Char) : Bool :=
  (9 ≤ c.toNat && c.toNat ≤ 13) || c.toNat == 32 || c.toNat == 160 ||
  c.toNat == 0x1680 || (0x2000 ≤ c.toNat && c.toNat ≤ 0x200a) ||
  c.toNat == 0x2028 || c.toNat == 0x2029 || c.toNat == 0x202f ||
  c.toNat == 0x205f || c.toNat == 0x3000 || c.toNat == 0xfeff

/-- The character class `[a-zA-Z0-9_-]` of the task-id validity regex
`^[a-zA-Z0-9_-]+$` (line 174 of the connector). -/
def isIdChar (c : Char) : Bool :=
  (97 ≤ c.toNat && c.toNat ≤ 122) || (65 ≤ c.toNat && c.toNat ≤ 90) ||
  (48 ≤ c.toNat && c.toNat ≤ 57) || c.toNat == 95 || c.toNat == 45

/-! ## Regex fragment matchers

The connector's five patterns (lines 155–166) are built from
case-insensitive ASCII literals, `\s*`, `\s+`, an optional reply marker
`(?:(?:Re|Fwd|RE|FWD|Fw):\s*)?`, and the capture `\[#([^\]]+)\]`.

For these specific patterns, backtracking never changes the outcome, so the
matchers below are written as deterministic maximal-munch functions:

* each `\s*`/`\s+` is immediately followed by a non-whitespace required
  character (`S`, `r`, `[`), so only the maximal whitespace run can succeed;
* `([^\]]+)\]` only succeeds on the maximal run of non-`]` characters;
* the reply-marker alternatives `Re|Fwd|RE|FWD|Fw` (with `i`, `RE`/`FWD` are
  redundant) are pairwise exclusive once the mandatory `:` is taken into
  account, and a matched marker starts with `r`/`f`, so the empty branch of
  the optional group (which must continue with `S`upport) can never rescue a
  position where the marker matched. -/

/-- Match a case-insensitive literal at the head of the input, returning the
rest of the input. -/
def matchLitCI : List Char → List Char → Option (List Char)
  | [], s => some s
  | _ :: _, [] => none
  | p :: ps, c :: s => if ciEq p c then matchLitCI ps s else none

/-- `\s+` (maximal munch; the following required character in every pattern
is non-whitespace). -/
def wsPlus : List Char → Option (List Char)
  | [] => none
  | c :: s => if isJsWS c then some (s.dropWhile isJsWS) else none

/-- The capture `([^\]]+)\]`: the maximal non-empty run of non-`]`
characters, which must be followed by `]`.  Returns the capture and the
remaining input. -/
def bracketCap (s : List Char) : Option (List Char × List Char) :=
  let cap := s.takeWhile (fun c => !(c == ']'))
  match s.dropWhile (fun c => !(c == ']')) with
  | ']' :: r2 => if cap.isEmpty then none else some (cap, r2)
  | _ => none

/-- The reply marker `(?:Re|Fwd|RE|FWD|Fw):\s*` (case-insensitive). -/
def matchReplyTag (s : List Char) : Option (List Char) :=
  match matchLitCI "re".data s with
  | some (':' :: r2) => some (r2.dropWhile isJsWS)
  | some _ => none
  | none =>
    match matchLitCI "fwd".data s with
    | some (':' :: r2) => some (r2.dropWhile isJsWS)
    | some _ => none
    | none =>
      match matchLitCI "fw".data s with
      | some (':' :: r2) => some (r2.dropWhile isJsWS)
      | some _ => none
      | none => none

/-- The optional reply marker: commit to the marker when it matches
(justified above: no position admits both the marker branch and the empty
branch). -/
def applyReplyTag (s : List Char) : List Char :=
  match matchReplyTag s with
  | some r => r
  | none => s

/-- `Support\s+request` (case-insensitive). -/
def afterSupportRequest (s : List Char) : Option (List Char) := do
  let s1 ← matchLitCI "support".data s
  let s2 ← wsPlus s1
  matchLitCI "request".data s2

/-- A literal `:` (unaffected by the `i` flag). -/
def matchColon : List Char → Option (List Char)
  | [] => none
  | c :: r => if c = ':' then some r else none

/-- `\s*\[#` followed by the capture. -/
def wsBracketCap (s : List Char) : Option (List Char × List Char) :=
  match s.dropWhile isJsWS with
  | '[' :: '#' :: r => bracketCap r
  | _ => none

/-- Pattern 3: `/Support\s+request:\s*\[#([^\]]+)\]/i` anchored at the
current position; returns the capture. -/
def hereP3 (s : List Char) : Option (List Char) := do
  let s1 ← afterSupportRequest s
  let s2 ← matchColon s1
  (wsBracketCap s2).map Prod.fst

/-- Pattern 4: `/Support\s+request\s*\[#([^\]]+)\]/i` at the current
position. -/
def hereP4 (s : List Char) : Option (List Char) := do
  let s1 ← afterSupportRequest s
  (wsBracketCap s1).map Prod.fst

/-- Pattern 1: `/(?:(?:Re|Fwd|RE|FWD|Fw):\s*)?Support\s+request:\s*\[#([^\]]+)\]/i`
at the current position. -/
def hereP1 (s : List Char) : Option (List Char) :=
  hereP3 (applyReplyTag s)

/-- Pattern 2: `/(?:(?:Re|Fwd|RE|FWD|Fw):\s*)?Support\s+request\s*\[#([^\]]+)\]/i`
at the current position. -/
def hereP2 (s : List Char) : Option (List Char) :=
  hereP4 (applyReplyTag s)

/-- Pattern 5: `/\[#([^\]]+)\]/i` at the current position. -/
def hereP5 : List Char → Option (List Char)
  | '[' :: '#' :: r => (bracketCap r).map Prod.fst
  | _ => none

/-- `String.prototype.match` without the `g` flag: try the pattern at each
position left to right and return the first (leftmost) match. -/
def firstMatch (m : List Char → Option (List Char)) : List Char → Option (List Char)
  | [] => m []
  | c :: rest =>
    match m (c :: rest) with
    | some cap => some cap
    | none => firstMatch m rest

/-- `String.prototype.trim` (drops `isJsWS` characters at both ends). -/
def trimChars (cs : List Char) : List Char :=
  (((cs.dropWhile isJsWS).reverse).dropWhile isJsWS).reverse

/-- `taskId.length > 0 && /^[a-zA-Z0-9_-]+$/.test(taskId)` (line 174). -/
def isValidTaskId (cs : List Char) : Bool :=
  decide (0 < cs.length) && cs.all isIdChar

/-- The connector's pattern array, in priority order (lines 155–166). -/
def patterns : List (List Char → Option (List Char)) :=
  [hereP1, hereP2, hereP3, hereP4, hereP5]

/-- The extraction loop (lines 169–185): try each pattern in order; on the
first one that matches at all, check the trimmed capture against the
validity rule and return it when valid, otherwise fall through to the next
pattern.  (`match[1]` is necessarily non-empty here because the capture is
`[^\]]+`.) -/
def firstValidTaskId : List (List Char → Option (List Char)) → List Char → Option String
  | [], _ => none
  | p :: ps, s =>
    match firstMatch p s with
    | some cap =>
      if isValidTaskId (trimChars cap) then some (String.mk (trimChars cap))
      else firstValidTaskId ps s
    | none => firstValidTaskId ps s

/-- A subject contains a bracketed token `[#…]` exactly when the bare
pattern 5 matches somewhere in it. -/
def hasBracketToken (s : List Char) : Bool := (firstMatch hereP5 s).isSome

/-- Scanner for an occurrence of a (case-insensitive) `t` immediately
followed by `:` — patterns 1 and 3 can only succeed on subjects containing
such a pair (the `t` of `request` followed by the mandatory colon). -/
def hasTColon : List Char → Bool
  | a :: b :: r => (ciEq 't' a && (b == ':')) || hasTColon (b :: r)
  | _ => false

/-! ## Percent-decoding (`decodeURIComponent`)

`decodeURIComponent` replaces each `%hh` escape by the corresponding byte
and then interprets maximal byte runs as strict UTF-8 (rejecting overlong
forms and surrogate code points); any failure throws a `URIError`, modelled
here as `none`.  Characters other than `%` pass through unchanged. -/

/-- Hexadecimal digit value. -/
def hexVal (c : Char) : Option Nat :=
  let n := c.toNat
  if 48 ≤ n && n ≤ 57 then some (n - 48)
  else if 65 ≤ n && n ≤ 70 then some (n - 55)
  else if 97 ≤ n && n ≤ 102 then some (n - 87)
  else none

/-- One element of a percent-decoded stream: a pass-through character or a
decoded escape byte. -/
inductive PctItem where
  | raw (c : Char)
  | byte (b : Nat)
deriving DecidableEq

/-- First phase: replace each `%hh` by its byte; malformed escapes fail. -/
def pctTokens : List Char → Option (List PctItem)
  | [] => some []
  | c :: rest =>
    if c = '%' then
      match rest with
      | h :: l :: rest2 =>
        match hexVal h, hexVal l with
        | some hv, some lv => (pctTokens rest2).map (PctItem.byte (16 * hv + lv) :: ·)
        | _, _ => none
      | _ => none
    else (pctTokens rest).map (PctItem.raw c :: ·)

/-- A UTF-8 continuation byte. -/
def isContByte (b : Nat) : Bool := 128 ≤ b && b ≤ 191

/-- Second phase: strict UTF-8 decoding of the escape bytes; pass-through
characters are kept as-is. -/
def pctDecodeItems : List PctItem → Option (List Char)
  | [] => some []
  | PctItem.raw c :: rest => (pctDecodeItems rest).map (c :: ·)
  | PctItem.byte b :: rest =>
    if b ≤ 127 then (pctDecodeItems rest).map (Char.ofNat b :: ·)
    else if 194 ≤ b && b ≤ 223 then
      match rest with
      | PctItem.byte b2 :: rest2 =>
        if isContByte b2 then
          (pctDecodeItems rest2).map (Char.ofNat ((b - 192) * 64 + (b2 - 128)) :: ·)
        else none
      | _ => none
    else if 224 ≤ b && b ≤ 239 then
      match rest with
      | PctItem.byte b2 :: PctItem.byte b3 :: rest2 =>
        if (if b = 224 then 160 ≤ b2 && b2 ≤ 191
            else if b = 237 then 128 ≤ b2 && b2 ≤ 159
            else isContByte b2) && isContByte b3 then
          (pctDecodeItems rest2).map
            (Char.ofNat (((b - 224) * 64 + (b2 - 128)) * 64 + (b3 - 128)) :: ·)
        else none
      | _ => none
    else if 240 ≤ b && b ≤ 244 then
      match rest with
      | PctItem.byte b2 :: PctItem.byte b3 :: PctItem.byte b4 :: rest2 =>
        if (if b = 240 then 144 ≤ b2 && b2 ≤ 191
            else if b = 244 then 128 ≤ b2 && b2 ≤ 143
            else isContByte b2) && isContByte b3 && isContByte b4 then
          (pctDecodeItems rest2).map
            (Char.ofNat ((((b - 240) * 64 + (b2 - 128)) * 64 + (b3 - 128)) * 64 + (b4 - 128)) :: ·)
        else none
      | _ => none
    else none

/-- `decodeURIComponent`, with `none` for a thrown `URIError`. -/
def decodeURIComponent (s : String) : Option String :=
  (pctTokens s.data).bind fun items => (pctDecodeItems items).map fun cs => String.mk cs

/-! ## The extractor (`extractTaskId`, lines 135–193) -/

/-- `EmailConnector.extractTaskId`: empty subjects are rejected up front
(`!subject`); the subject is percent-decoded when possible (falling back to
the raw subject when decoding throws, lines 143–150); then the five patterns
are tried in priority order. -/
def extractTaskId (subject : String) : Option String :=
  if subject = "" then none
  else
    let normalizedSubject := (decodeURIComponent subject).getD subject
    firstValidTaskId patterns normalizedSubject.data

/-! ## Message processor (`processNewEmails`, lines 299–461)

One scan pass searches for `UNSEEN` messages and processes each fetched
message independently: parse, extract the task id from the subject, apply
the size/encoding safeguards, invoke the callback, and — only when the
callback completed without throwing — add the `\Seen` flag.

The caller-supplied callback is modelled as a `Bool`-valued function
(`false` = it threw or rejected); `simpleParser` failure is modelled by a
message whose `parsed` field is `none`; Unicode NFD normalization
(`emailContent.normalize("NFD")`) is kept abstract as a `String → String`
parameter `nfd`. -/

/-- The `1000000`-character body ceiling (`maxEmailContentLength`). -/
def maxEmailContentLength : Nat := 1000000

/-- The notice appended to truncated bodies (line 355). -/
def truncationNotice : String := "\n\n[Content truncated due to size limit]"

/-- Lines 344–356: truncate over-long content and append the notice. -/
def truncateChars (cs : List Char) : List Char :=
  if maxEmailContentLength < cs.length then
    cs.take maxEmailContentLength ++ truncationNotice.data
  else cs

/-- `truncateChars` on `String` (JS `substring(0, n)` on the code-unit
sequence). -/
def truncateContent (s : String) : String := String.mk (truncateChars s.data)

/-- The content handed to the callback: truncation first (lines 344–356),
then NFD normalization (line 362). -/
def deliveredContent (nfd : String → String) (content : String) : String :=
  nfd (truncateContent content)

/-- The fields of a `mailparser` result the processor reads. -/
structure ParsedMail where
  subject : Option String
  text : Option String
  html : Option String

/-- A fetched message; `parsed = none` models `simpleParser` throwing. -/
structure EmailMessage where
  parsed : Option ParsedMail

/-- JavaScript `a || b` for an optional string `a` (empty string is falsy). -/
def orFalsy (a : Option String) (b : String) : String :=
  match a with
  | some s => if s = "" then b else s
  | none => b

/-- Line 330–332: `parsed.subject ? this.extractTaskId(parsed.subject) : null`
(an absent or empty subject is falsy; `extractTaskId` also rejects the empty
subject). -/
def taskIdOfParsed (p : ParsedMail) : Option String :=
  match p.subject with
  | some s => if s = "" then none else extractTaskId s
  | none => none

/-- Line 341: `parsed.text || parsed.html || ""`. -/
def contentOfParsed (p : ParsedMail) : String :=
  orFalsy p.text (orFalsy p.html "")

/-- Processing of a single fetched message.  Returns the callback
invocations it performs (in order) and whether the `\Seen` flag was added.
A parse failure (lines 431–440) and an extraction miss (lines 422–430) are
logged and produce no invocation and no flag; a callback failure (lines
407–421) is caught after the invocation, and the `addFlags` call on line 394
is only reached when the callback returned normally. -/
def processMessage (nfd : String → String) (cb : String → String → Bool)
    (m : EmailMessage) : List (String × String) × Bool :=
  match m.parsed with
  | none => ([], false)
  | some p =>
    match taskIdOfParsed p with
    | none => ([], false)
    | some tid =>
      let content := deliveredContent nfd (contentOfParsed p)
      if cb tid content then ([(tid, content)], true)
      else ([(tid, content)], false)

/-- One scan pass over the mailbox, modelled as a list of messages paired
with their `\Seen` flag.  `imap.search(["UNSEEN"])` selects the unseen
messages; each is processed independently by `processMessage`; the returned
mailbox carries the updated flags and the returned list is the concatenated
callback-invocation trace. -/
def processNewEmails (nfd : String → String) (cb : String → String → Bool) :
    List (EmailMessage × Bool) → List (EmailMessage × Bool) × List (String × String)
  | [] => ([], [])
  | (m, seen) :: rest =>
    let r := processNewEmails nfd cb rest
    if seen then ((m, true) :: r.1, r.2)
    else
      let pm := processMessage nfd cb m
      ((m, pm.2) :: r.1, pm.1 ++ r.2)

/-! ## Reconnect loop (`attemptReconnect`, lines 467–503)

The loop checks the counter against the ceiling, increments it, waits
`reconnectDelay` milliseconds, and retries `startEmailListener`; a failure
recurses, a success fires the `ready` handler which resets the counter to
zero (line 236).  `outcome k` tells whether the `k`-th reconnect attempt
succeeds.  The function returns the terminal result, the final value of
`reconnectAttempts`, and the list of delays (one per attempt performed, in
milliseconds). -/

/-- `maxReconnectAttempts` (line 29). -/
def maxReconnectAttempts : Nat := 5

/-- `reconnectDelay` in milliseconds (line 30). -/
def reconnectDelay : Nat := 5000

/-- `EmailConnector.attemptReconnect`, started with the current value `n` of
`reconnectAttempts`. -/
def attemptReconnect (outcome : Nat → Bool) (n : Nat) :
    Except Unit Unit × Nat × List Nat :=
  if h : maxReconnectAttempts ≤ n then (Except.error (), n, [])
  else
    if outcome (n + 1) then (Except.ok (), 0, [reconnectDelay])
    else
      let r := attemptReconnect outcome (n + 1)
      (r.1, r.2.1, reconnectDelay :: r.2.2)
termination_by maxReconnectAttempts - n
decreasing_by omega

/-! ## Outbound envelope (`sendEmail`, lines 88–125)

The envelope is the JavaScript object literal
`{ from, subject, to, text, ...(options || {}) }`; with object-spread
semantics the *last* binding of a key wins, so `objField` searches the tail
first. -/

/-- The base envelope fields, in literal order (lines 100–107). -/
def baseMailFields (smtpUser taskId contactInfo message : String) :
    List (String × String) :=
  [("from", smtpUser),
   ("subject", "Support request: [#" ++ taskId ++ "]"),
   ("to", contactInfo),
   ("text", message)]

/-- The full `mailOptions` object: base fields then the spread of the
caller's `options`. -/
def mailOptions (smtpUser taskId contactInfo message : String)
    (options : List (String × String)) : List (String × String) :=
  baseMailFields smtpUser taskId contactInfo message ++ options

/-- Field lookup under object-literal semantics: the last binding of a key
is the one the object carries. -/
def objField (k : String) : List (String × String) → Option String
  | [] => none
  | (k2, v) :: rest =>
    match objField k rest with
    | some v2 => some v2
    | none => if k2 = k then some v else none

/-! ## Listener state machine (`startEmailListener` / `stopEmailListener`)

The connector's mutable fields relevant to claims C9/C10, with object
references abstracted to presence booleans.  `Reachable` closes the initial
state under the field updates the event handlers actually perform:
`startEmailListener` (lines 230–231), the `ready` handler (line 236), the
`openBox` callback (success starts polling, line 249; failure clears
`isListening`, line 241), the `error`/`end` handlers (lines 255, 266), the
reconnect reset (lines 489–490) and bump (line 478), and
`stopEmailListener` itself. -/

/-- The connector's listener-related mutable fields. -/
structure ConnectorState where
  imapConnection : Bool
  isListening : Bool
  pollingInterval : Bool
  reconnectAttempts : Nat
deriving DecidableEq

/-- Field values at construction (lines 25–34). -/
def initialState : ConnectorState :=
  { imapConnection := false, isListening := false,
    pollingInterval := false, reconnectAttempts := 0 }

/-- `EmailConnector.stopEmailListener` (lines 585–599): everything is
guarded by `if (this.imapConnection && this.isListening)`. -/
def stopEmailListener (s : ConnectorState) : ConnectorState :=
  if s.imapConnection && s.isListening then
    { imapConnection := false, isListening := false,
      pollingInterval := false, reconnectAttempts := 0 }
  else s

/-- States the connector can reach through its event handlers. -/
inductive Reachable : ConnectorState → Prop where
  | init : Reachable initialState
  | start (s : ConnectorState) : Reachable s → s.isListening = false →
      Reachable { s with imapConnection := true, isListening := true }
  | ready (s : ConnectorState) : Reachable s →
      Reachable { s with reconnectAttempts := 0 }
  | openBoxOk (s : ConnectorState) : Reachable s →
      Reachable { s with pollingInterval := true }
  | openBoxErr (s : ConnectorState) : Reachable s →
      Reachable { s with isListening := false }
  | errorEvent (s : ConnectorState) : Reachable s →
      Reachable { s with isListening := false }
  | endEvent (s : ConnectorState) : Reachable s →
      Reachable { s with isListening := false }
  | reconnectReset (s : ConnectorState) : Reachable s →
      Reachable { s with imapConnection := false, isListening := false }
  | reconnectBump (s : ConnectorState) : Reachable s →
      s.reconnectAttempts < maxReconnectAttempts →
      Reachable { s with reconnectAttempts := s.reconnectAttempts + 1 }
  | stop (s : ConnectorState) : Reachable s → Reachable (stopEmailListener s)

/-- The state after connect → ready → polling started → IMAP `error` event:
the connection object and the polling timer are still set, but the `error`
handler has cleared `isListening`. -/
def postErrorState : ConnectorState :=
  { imapConnection := true, isListening := false,
    pollingInterval := true, reconnectAttempts := 0 }

/-! ## Helper lemmas -/

/-- Object-spread semantics: a key's value in `l1 ++ l2` comes from `l2`
when `l2` binds it, otherwise from `l1`. -/
theorem objField_append (k : String) (l1 l2 : List (String × String)) :
    objField k (l1 ++ l2) =
      match objField k l2 with
      | some v => some v
      | none => objField k l1 := by
  induction l1 with
  | nil =>
    simp only [List.nil_append]
    cases objField k l2 <;> simp [objField]
  | cons x l1 ih =>
    obtain ⟨k2, v⟩ := x
    simp only [List.cons_append, objField, List.append_eq]
    rw [ih]
    cases objField k l2 <;> cases objField k l1 <;> simp

/-- A key absent from an options object has no binding. -/
theorem objField_eq_none (k : String) (l : List (String × String))
    (h : ∀ kv ∈ l, kv.1 ≠ k) : objField k l = none := by
  induction l with
  | nil => rfl
  | cons x l ih =>
    obtain ⟨k2, v⟩ := x
    simp only [objField, ih fun kv hkv => h kv (List.mem_cons_of_mem _ hkv)]
    have : k2 ≠ k := h (k2, v) (List.mem_cons_self _ _)
    simp [this]

theorem objField_base_subject (smtpUser taskId contactInfo message : String) :
    objField "subject" (baseMailFields smtpUser taskId contactInfo message) =
      some ("Support request: [#" ++ taskId ++ "]") := by
  simp [baseMailFields, objField]

/-! ## Claim C2 (corrected) -/

/-- Claim C2, counterexample: in
`{ from, subject, to, text, ...(options || {}) }` the spread of `options`
comes last, so a caller-supplied `subject` option *does* override the
computed subject. -/
theorem c2_subject_override_counterexample :
    objField "subject"
        (mailOptions "agent@example.com" "t1" "team@example.com" "hi"
          [("subject", "hijacked")]) = some "hijacked" ∧
      ("hijacked" : String) ≠ "Support request: [#t1]" := by
  constructor
  · rfl
  · decide

/-- Claim C2, amended: the envelope's subject is
`Support request: [#<identifier>]` whenever the caller's options do not bind
`subject`, but the options are spread last and therefore override every base
field, the subject included. -/
theorem c2_subject_amended (smtpUser taskId contactInfo message : String)
    (options : List (String × String)) :
    ((∀ kv ∈ options, kv.1 ≠ "subject") →
      objField "subject" (mailOptions smtpUser taskId contactInfo message options) =
        some ("Support request: [#" ++ taskId ++ "]")) ∧
    (∀ k v, objField k options = some v →
      objField k (mailOptions smtpUser taskId contactInfo message options) = some v) := by
  constructor
  · intro h
    rw [mailOptions, objField_append, objField_eq_none _ _ h,
      objField_base_subject]
  · intro k v h
    rw [mailOptions, objField_append, h]

theorem c2_subject_amended_witness :
    objField "subject" (mailOptions "agent@example.com" "t1" "team@example.com" "hi" []) =
        some "Support request: [#t1]" ∧
      objField "to" (mailOptions "agent@example.com" "t1" "team@example.com" "hi"
          [("to", "other@example.com")]) = some "other@example.com" := by
  constructor
  · exact (c2_subject_amended "agent@example.com" "t1" "team@example.com" "hi" []).1
      (by intro kv h; cases h)
  · exact (c2_subject_amended "agent@example.com" "t1" "team@example.com" "hi"
      [("to", "other@example.com")]).2 "to" "other@example.com" rfl

/-! ## Claim C5 (confirmed) -/

theorem attemptReconnect_all_fail :
    attemptReconnect (fun _ => false) 0 =
      (Except.error (), maxReconnectAttempts,
        List.replicate maxReconnectAttempts reconnectDelay) := by
  simp [attemptReconnect, maxReconnectAttempts, reconnectDelay, List.replicate]

theorem attemptReconnect_counter_le (f : Nat → Bool) :
    ∀ k n, maxReconnectAttempts - n ≤ k → n ≤ maxReconnectAttempts →
      (attemptReconnect f n).2.1 ≤ maxReconnectAttempts := by
  intro k
  induction k with
  | zero =>
    intro n hk hn
    have : maxReconnectAttempts ≤ n := by omega
    rw [attemptReconnect, dif_pos this]
    exact hn
  | succ k ih =>
    intro n hk hn
    rw [attemptReconnect]
    by_cases h : maxReconnectAttempts ≤ n
    · rw [dif_pos h]; exact hn
    · rw [dif_neg h]
      by_cases ho : f (n + 1) = true
      · simp only [ho, if_true]
        exact Nat.zero_le _
      · simp only [Bool.not_eq_true] at ho
        simp only [ho, Bool.false_eq_true, if_false]
        exact ih (n + 1) (by omega) (by omega)

theorem attemptReconnect_ok_resets (f : Nat → Bool) :
    ∀ k n, maxReconnectAttempts - n ≤ k →
      (attemptReconnect f n).1 = Except.ok () → (attemptReconnect f n).2.1 = 0 := by
  intro k
  induction k with
  | zero =>
    intro n hk hok
    have : maxReconnectAttempts ≤ n := by omega
    rw [attemptReconnect, dif_pos this] at hok ⊢
    cases hok
  | succ k ih =>
    intro n hk hok
    rw [attemptReconnect] at hok ⊢
    by_cases h : maxReconnectAttempts ≤ n
    · rw [dif_pos h] at hok; cases hok
    · rw [dif_neg h] at hok ⊢
      by_cases ho : f (n + 1) = true
      · simp [ho]
      · simp only [Bool.not_eq_true] at ho
        simp only [ho, Bool.false_eq_true, if_false] at hok ⊢
        exact ih (n + 1) (by omega) hok

/-- Claim C5: starting from a zero counter, five consecutive failures give
exactly five attempts (each preceded by the fixed 5000 ms delay), then the
terminal error with no sixth attempt; the counter never exceeds the ceiling
when started at or below it; and a run that ends in success leaves the
counter reset to zero (the `ready` handler's reset). -/
theorem c5_reconnect_bounded :
    attemptReconnect (fun _ => false) 0 =
        (Except.error (), maxReconnectAttempts,
          List.replicate maxReconnectAttempts reconnectDelay) ∧
      (∀ (f : Nat → Bool) (n : Nat), n ≤ maxReconnectAttempts →
        (attemptReconnect f n).2.1 ≤ maxReconnectAttempts) ∧
      (∀ (f : Nat → Bool) (n : Nat), (attemptReconnect f n).1 = Except.ok () →
        (attemptReconnect f n).2.1 = 0) := by
  refine ⟨attemptReconnect_all_fail, ?_, ?_⟩
  · intro f n hn
    exact attemptReconnect_counter_le f (maxReconnectAttempts - n) n (le_refl _) hn
  · intro f n hok
    exact attemptReconnect_ok_resets f (maxReconnectAttempts - n) n (le_refl _) hok

theorem c5_reconnect_bounded_witness :
    (attemptReconnect (fun _ => false) 3).2.1 ≤ maxReconnectAttempts ∧
      (attemptReconnect (fun k => k == 2) 0).2.1 = 0 := by
  constructor
  · exact c5_reconnect_bounded.2.1 (fun _ => false) 3 (by decide)
  · exact c5_reconnect_bounded.2.2 (fun k => k == 2) 0
      (by simp [attemptReconnect, maxReconnectAttempts])

/-! ## Claim C7 (confirmed) -/

/-- Claim C7: the content handed to the callback is the normalization of
the truncated body; a body longer than the 1,000,000-character ceiling is
cut to exactly the ceiling with the truncation notice appended, and a body
at or below the ceiling is passed through untruncated. -/
theorem c7_content_truncation :
    (∀ (nfd : String → String) (s : String),
        deliveredContent nfd s = nfd (String.mk (truncateChars s.data))) ∧
      (∀ cs : List Char, maxEmailContentLength < cs.length →
        truncateChars cs = cs.take maxEmailContentLength ++ truncationNotice.data ∧
          (cs.take maxEmailContentLength).length = maxEmailContentLength) ∧
      (∀ cs : List Char, cs.length ≤ maxEmailContentLength → truncateChars cs = cs) := by
  refine ⟨fun nfd s => rfl, fun cs h => ⟨?_, ?_⟩, fun cs h => ?_⟩
  · rw [truncateChars, if_pos h]
  · rw [List.length_take]; omega
  · rw [truncateChars, if_neg (by omega)]

theorem c7_content_truncation_witness :
    truncateChars (List.replicate 1000001 'a') =
        List.replicate 1000000 'a' ++ truncationNotice.data ∧
      truncateChars ['h', 'i'] = ['h', 'i'] := by
  constructor
  · have h := (c7_content_truncation.2.1 (List.replicate 1000001 'a')
      (by rw [List.length_replicate]; decide)).1
    rw [h, List.take_replicate]
    norm_num [maxEmailContentLength]
  · exact c7_content_truncation.2.2 ['h', 'i'] (by decide)

/-! ## Claims C9 (corrected) and C10 (confirmed) -/

/-- The post-error state is reachable: construct → `startEmailListener` →
`ready` → `openBox` success (polling starts) → IMAP `error` event. -/
theorem reachable_postErrorState : Reachable postErrorState :=
  Reachable.errorEvent _ (Reachable.openBoxOk _
    (Reachable.ready _ (Reachable.start _ Reachable.init rfl)))

/-- Claim C9, counterexample: in the reachable state left behind by an IMAP
`error` event (connection object still set, polling timer still scheduled,
`isListening` already cleared), `stopEmailListener` is a no-op: it neither
tears the session down nor cancels the pending polling timer. -/
theorem c9_stop_counterexample :
    Reachable postErrorState ∧
      stopEmailListener postErrorState = postErrorState ∧
      postErrorState.pollingInterval = true ∧
      postErrorState.imapConnection = true :=
  ⟨reachable_postErrorState, rfl, rfl, rfl⟩

/-- Claim C9, amended: `stopEmailListener` is idempotent; when the
connection object is set and the listener flag is true it tears everything
down (connection nulled, timer cancelled, flags and counter reset), and in
every other state — including reachable post-error states with a pending
timer — it changes nothing. -/
theorem c9_stop_idempotent_amended :
    (∀ s, stopEmailListener (stopEmailListener s) = stopEmailListener s) ∧
      (∀ s, s.imapConnection = true → s.isListening = true →
        stopEmailListener s = initialState) ∧
      (∀ s, s.imapConnection = false ∨ s.isListening = false →
        stopEmailListener s = s) := by
  refine ⟨fun s => ?_, fun s h1 h2 => ?_, fun s h => ?_⟩
  · by_cases h : s.imapConnection && s.isListening
    · have h1 : stopEmailListener s = initialState := by
        rw [stopEmailListener, if_pos h]; rfl
      rw [h1]; rfl
    · have h1 : stopEmailListener s = s := by rw [stopEmailListener, if_neg h]
      rw [h1]; exact h1
  · rw [stopEmailListener, if_pos (by rw [h1, h2]; rfl)]; rfl
  · rw [stopEmailListener, if_neg (by rcases h with h | h <;> simp [h])]

theorem c9_stop_idempotent_amended_witness :
    stopEmailListener (stopEmailListener postErrorState) =
        stopEmailListener postErrorState ∧
      stopEmailListener
          { imapConnection := true, isListening := true,
            pollingInterval := true, reconnectAttempts := 3 } = initialState ∧
      stopEmailListener postErrorState = postErrorState := by
  refine ⟨c9_stop_idempotent_amended.1 postErrorState, ?_, ?_⟩
  · exact c9_stop_idempotent_amended.2.1 _ rfl rfl
  · exact c9_stop_idempotent_amended.2.2 postErrorState (Or.inr rfl)

/-- Claim C10: `stopEmailListener` mutates nothing unless both the
connection object is set and `isListening` is true; in particular the
reachable post-error state (flag cleared by the `error` handler, timer still
scheduled, connection still set) is left entirely unchanged. -/
theorem c10_stop_frame :
    (∀ s, ¬(s.imapConnection = true ∧ s.isListening = true) →
        stopEmailListener s = s) ∧
      (Reachable postErrorState ∧ stopEmailListener postErrorState = postErrorState) := by
  refine ⟨fun s h => ?_, reachable_postErrorState, rfl⟩
  rw [stopEmailListener, if_neg]
  intro hc
  exact h (by constructor <;> [exact (Bool.and_eq_true _ _ ▸ hc).1;
    exact (Bool.and_eq_true _ _ ▸ hc).2])

theorem c10_stop_frame_witness :
    stopEmailListener initialState = initialState :=
  c10_stop_frame.1 initialState (by intro h; cases h.1)

/-! ## Claim C6 (confirmed) -/

/-- Claim C6: the extractor is a total function into `Option` (the
embedding's rendering of "terminates and never throws"); on a non-empty
subject it matches the percent-decoded subject when decoding succeeds and
falls back to the raw subject when decoding fails, and the empty subject is
rejected up front. -/
theorem c6_extract_decode_fallback_total :
    extractTaskId "" = none ∧
      (∀ s d, s ≠ "" → decodeURIComponent s = some d →
        extractTaskId s = firstValidTaskId patterns d.data) ∧
      (∀ s, s ≠ "" → decodeURIComponent s = none →
        extractTaskId s = firstValidTaskId patterns s.data) := by
  refine ⟨rfl, fun s d hs hd => ?_, fun s hs hd => ?_⟩
  · rw [extractTaskId, if_neg hs]
    simp [hd]
  · rw [extractTaskId, if_neg hs]
    simp [hd]

theorem c6_extract_decode_fallback_total_witness :
    extractTaskId "abc" = firstValidTaskId patterns "abc".data ∧
      extractTaskId "100% sure" = firstValidTaskId patterns "100% sure".data := by
  constructor
  · exact c6_extract_decode_fallback_total.2.1 "abc" "abc" (by decide) (by rfl)
  · exact c6_extract_decode_fallback_total.2.2 "100% sure" (by decide) (by rfl)

/-! ## Claims C1 (corrected) and C8 (confirmed) -/

/-- A scan pass processes each message independently, so it distributes over
list concatenation. -/
theorem processNewEmails_append (nfd : String → String)
    (cb : String → String → Bool) (l1 l2 : List (EmailMessage × Bool)) :
    processNewEmails nfd cb (l1 ++ l2) =
      ((processNewEmails nfd cb l1).1 ++ (processNewEmails nfd cb l2).1,
        (processNewEmails nfd cb l1).2 ++ (processNewEmails nfd cb l2).2) := by
  induction l1 with
  | nil => simp [processNewEmails]
  | cons x l1 ih =>
    obtain ⟨m, seen⟩ := x
    cases seen <;> simp [processNewEmails, ih]

/-- Claim C8: a message whose subject yields no valid identifier produces no
callback invocation and no flag change (it stays unseen), and the rest of
the scan pass is processed exactly as it would be without it. -/
theorem c8_unmatched_message_skipped (nfd : String → String)
    (cb : String → String → Bool) (p : ParsedMail)
    (pre post : List (EmailMessage × Bool)) (h : taskIdOfParsed p = none) :
    processMessage nfd cb ⟨some p⟩ = ([], false) ∧
      processNewEmails nfd cb (pre ++ (⟨some p⟩, false) :: post) =
        ((processNewEmails nfd cb pre).1 ++
            (⟨some p⟩, false) :: (processNewEmails nfd cb post).1,
          (processNewEmails nfd cb pre).2 ++ (processNewEmails nfd cb post).2) := by
  have hm : processMessage nfd cb ⟨some p⟩ = ([], false) := by
    simp [processMessage, h]
  refine ⟨hm, ?_⟩
  rw [processNewEmails_append]
  simp [processNewEmails, hm]

theorem c8_unmatched_message_skipped_witness :
    processMessage (fun s => s) (fun _ _ => true)
        ⟨some ⟨some "Meeting notes", some "hi", none⟩⟩ = ([], false) ∧
      processNewEmails (fun s => s) (fun _ _ => true)
          [(⟨some ⟨some "Meeting notes", some "hi", none⟩⟩, false)] =
        ([(⟨some ⟨some "Meeting notes", some "hi", none⟩⟩, false)], []) := by
  have h := c8_unmatched_message_skipped (fun s => s) (fun _ _ => true)
    ⟨some "Meeting notes", some "hi", none⟩ [] [] (by decide)
  refine ⟨h.1, ?_⟩
  have h2 := h.2
  simpa [processNewEmails] using h2

/-- Claim C1, counterexample: for a matched message whose callback throws,
the `addFlags(seqno, "\Seen", ...)` call sits after the callback inside the
same `try` block, so the thrown callback skips it — the message is *not*
flagged read, contrary to the claim. -/
theorem c1_callback_failure_flag_counterexample :
    taskIdOfParsed ⟨some "Support request: [#t1]", some "hello", none⟩ = some "t1" ∧
      processMessage (fun s => s) (fun _ _ => false)
          ⟨some ⟨some "Support request: [#t1]", some "hello", none⟩⟩ =
        ([("t1", "hello")], false) := by
  constructor
  · decide
  · decide

/-- Claim C1, amended: when the callback throws or rejects on a matched
message, the failure is caught and contained (the pass completes and every
other message is processed exactly as before), the callback was invoked with
the identifier and the safeguarded content — but the message is *not*
flagged read: the `\Seen` flag is only added when the callback completes
successfully. -/
theorem c1_callback_failure_contained_amended (nfd : String → String)
    (cb : String → String → Bool) (p : ParsedMail) (tid : String)
    (pre post : List (EmailMessage × Bool))
    (h : taskIdOfParsed p = some tid)
    (hcb : cb tid (deliveredContent nfd (contentOfParsed p)) = false) :
    processMessage nfd cb ⟨some p⟩ =
        ([(tid, deliveredContent nfd (contentOfParsed p))], false) ∧
      processNewEmails nfd cb (pre ++ (⟨some p⟩, false) :: post) =
        ((processNewEmails nfd cb pre).1 ++
            (⟨some p⟩, false) :: (processNewEmails nfd cb post).1,
          (processNewEmails nfd cb pre).2 ++
            (tid, deliveredContent nfd (contentOfParsed p)) ::
              (processNewEmails nfd cb post).2) := by
  have hm : processMessage nfd cb ⟨some p⟩ =
      ([(tid, deliveredContent nfd (contentOfParsed p))], false) := by
    simp [processMessage, h, hcb]
  refine ⟨hm, ?_⟩
  rw [processNewEmails_append]
  simp [processNewEmails, hm]

theorem c1_callback_failure_contained_amended_witness :
    processMessage (fun s => s) (fun _ _ => false)
        ⟨some ⟨some "Re: Support request: [#task-42]", some "Approved", none⟩⟩ =
      ([("task-42", "Approved")], false) :=
  (c1_callback_failure_contained_amended (fun s => s) (fun _ _ => false)
    ⟨some "Re: Support request: [#task-42]", some "Approved", none⟩ "task-42" [] []
    (by decide) rfl).1

/-! ## Lemmas about the extractor -/

theorem dropWhile_sfx {α : Type} (p : α → Bool) (l : List α) :
    l.dropWhile p <:+ l := by
  induction l with
  | nil => exact List.suffix_refl _
  | cons c l ih =>
    rw [List.dropWhile_cons]
    by_cases h : p c = true
    · rw [if_pos h]; exact ih.trans (List.suffix_cons c l)
    · rw [if_neg h]

theorem matchLitCI_sfx : ∀ (ps s r : List Char),
    matchLitCI ps s = some r → r <:+ s := by
  intro ps
  induction ps with
  | nil =>
    intro s r h
    cases h
    exact List.suffix_refl _
  | cons p ps ih =>
    intro s r h
    cases s with
    | nil => cases h
    | cons c s2 =>
      rw [matchLitCI] at h
      by_cases hc : ciEq p c = true
      · rw [if_pos hc] at h
        exact (ih s2 r h).trans (List.suffix_cons c s2)
      · rw [if_neg hc] at h; cases h

theorem wsPlus_sfx (s r : List Char) (h : wsPlus s = some r) : r <:+ s := by
  cases s with
  | nil => cases h
  | cons c s2 =>
    rw [wsPlus] at h
    by_cases hc : isJsWS c = true
    · rw [if_pos hc] at h
      cases h
      exact (dropWhile_sfx isJsWS s2).trans (List.suffix_cons c s2)
    · rw [if_neg hc] at h; cases h

theorem matchColon_sfx (s r : List Char) (h : matchColon s = some r) : r <:+ s := by
  cases s with
  | nil => cases h
  | cons c s2 =>
    rw [matchColon] at h
    by_cases hc : c = ':'
    · rw [if_pos hc] at h
      cases h
      exact List.suffix_cons _ _
    · rw [if_neg hc] at h; cases h

theorem afterSupportRequest_sfx (s r : List Char)
    (h : afterSupportRequest s = some r) : r <:+ s := by
  rw [afterSupportRequest] at h
  obtain ⟨a1, ha1, hb⟩ := Option.bind_eq_some.mp h
  obtain ⟨b1, hb1, hreq⟩ := Option.bind_eq_some.mp hb
  exact ((matchLitCI_sfx _ b1 r hreq).trans (wsPlus_sfx a1 b1 hb1)).trans
    (matchLitCI_sfx _ s a1 ha1)

theorem matchReplyTag_sfx (s r : List Char) (h : matchReplyTag s = some r) :
    r <:+ s := by
  rw [matchReplyTag] at h
  split at h
  · next r2 heq =>
    cases h
    exact ((dropWhile_sfx isJsWS r2).trans (List.suffix_cons ':' r2)).trans
      (matchLitCI_sfx _ s _ heq)
  · cases h
  · split at h
    · next r2 heq =>
      cases h
      exact ((dropWhile_sfx isJsWS r2).trans (List.suffix_cons ':' r2)).trans
        (matchLitCI_sfx _ s _ heq)
    · cases h
    · split at h
      · next r2 heq =>
        cases h
        exact ((dropWhile_sfx isJsWS r2).trans (List.suffix_cons ':' r2)).trans
          (matchLitCI_sfx _ s _ heq)
      · cases h
      · cases h

theorem applyReplyTag_sfx (s : List Char) : applyReplyTag s <:+ s := by
  rw [applyReplyTag]
  split
  · next r heq => exact matchReplyTag_sfx s r heq
  · exact List.suffix_refl _

/-- `firstMatch` succeeds when the pattern matches at the current
position. -/
theorem firstMatch_here (m : List Char → Option (List Char)) (s cap : List Char)
    (h : m s = some cap) : firstMatch m s = some cap := by
  cases s with
  | nil => exact h
  | cons c rest => rw [firstMatch, h]

theorem firstMatch_some_suffix (m : List Char → Option (List Char)) :
    ∀ (s cap : List Char), firstMatch m s = some cap →
      ∃ t, t <:+ s ∧ m t = some cap := by
  intro s
  induction s with
  | nil => intro cap h; exact ⟨[], List.suffix_refl _, h⟩
  | cons c rest ih =>
    intro cap h
    cases hm : m (c :: rest) with
    | some cap2 =>
      have h2 : firstMatch m (c :: rest) = some cap2 := by rw [firstMatch, hm]
      rw [h2] at h
      cases h
      exact ⟨c :: rest, List.suffix_refl _, hm⟩
    | none =>
      rw [firstMatch, hm] at h
      obtain ⟨t, ht, hmt⟩ := ih cap h
      exact ⟨t, ht.trans (List.suffix_cons c rest), hmt⟩

theorem firstMatch_eq_none_all (m : List Char → Option (List Char)) :
    ∀ s : List Char, firstMatch m s = none → ∀ t, t <:+ s → m t = none := by
  intro s
  induction s with
  | nil =>
    intro h t ht
    rw [List.suffix_nil.mp ht]
    exact h
  | cons c rest ih =>
    intro h t ht
    have hm : m (c :: rest) = none := by
      cases hm : m (c :: rest) with
      | none => rfl
      | some cap => rw [firstMatch, hm] at h; cases h
    rcases List.suffix_cons_iff.mp ht with rfl | ht2
    · exact hm
    · have hrest : firstMatch m rest = none := by
        rw [firstMatch, hm] at h; exact h
      exact ih hrest t ht2

theorem firstMatch_none_of_all (m : List Char → Option (List Char)) :
    ∀ s : List Char, (∀ t, t <:+ s → m t = none) → firstMatch m s = none := by
  intro s
  induction s with
  | nil => intro h; exact h [] (List.suffix_refl _)
  | cons c rest ih =>
    intro h
    rw [firstMatch, h (c :: rest) (List.suffix_refl _)]
    exact ih fun t ht => h t (ht.trans (List.suffix_cons c rest))

/-- Characters accepted by the validity rule are unproblematic for every
other step: not `%` (no decoding change), not `:`/`]` (no pattern
delimiter), and not whitespace (trimming is the identity). -/
theorem isIdChar_facts (c : Char) (h : isIdChar c = true) :
    c ≠ '%' ∧ c ≠ ':' ∧ c ≠ ']' ∧ isJsWS c = false := by
  refine ⟨?_, ?_, ?_, ?_⟩
  · intro he; subst he; exact absurd h (by decide)
  · intro he; subst he; exact absurd h (by decide)
  · intro he; subst he; exact absurd h (by decide)
  · by_contra hw
    rw [Bool.not_eq_false] at hw
    simp only [isIdChar, Bool.or_eq_true, Bool.and_eq_true, decide_eq_true_eq,
      beq_iff_eq] at h
    simp only [isJsWS, Bool.or_eq_true, Bool.and_eq_true, decide_eq_true_eq,
      beq_iff_eq] at hw
    omega

theorem dropWhile_id_of_all {α : Type} (p : α → Bool) (l : List α)
    (h : ∀ x ∈ l, p x = false) : l.dropWhile p = l := by
  cases l with
  | nil => rfl
  | cons a l => rw [List.dropWhile_cons, if_neg (by rw [h a (List.mem_cons_self a l)]; simp)]

theorem trimChars_id (cs : List Char) (h : ∀ c ∈ cs, isJsWS c = false) :
    trimChars cs = cs := by
  rw [trimChars, dropWhile_id_of_all _ _ h,
    dropWhile_id_of_all _ _ fun c hc => h c (List.mem_reverse.mp hc),
    List.reverse_reverse]

theorem takeWhile_append_all {α : Type} (p : α → Bool) :
    ∀ (xs : List α) (y : α) (ys : List α), (∀ x ∈ xs, p x = true) → p y = false →
      ((xs ++ y :: ys).takeWhile p = xs ∧ (xs ++ y :: ys).dropWhile p = y :: ys) := by
  intro xs
  induction xs with
  | nil =>
    intro y ys _ hy
    constructor
    · rw [List.nil_append, List.takeWhile_cons, if_neg (by rw [hy]; simp)]
    · rw [List.nil_append, List.dropWhile_cons, if_neg (by rw [hy]; simp)]
  | cons a xs ih =>
    intro y ys hx hy
    have ha : p a = true := hx a (List.mem_cons_self a xs)
    have hrest := ih y ys (fun x hx2 => hx x (List.mem_cons_of_mem a hx2)) hy
    constructor
    · rw [List.cons_append, List.takeWhile_cons, if_pos ha, hrest.1]
    · rw [List.cons_append, List.dropWhile_cons, if_pos ha, hrest.2]

/-- The capture against `X]…`: when `X` is non-empty and `]`-free, the
capture is exactly `X`. -/
theorem bracketCap_exact (xs rest : List Char) (hne : xs ≠ [])
    (h : ∀ c ∈ xs, c ≠ ']') :
    bracketCap (xs ++ ']' :: rest) = some (xs, rest) := by
  have hx : ∀ x ∈ xs, (fun c => !(c == ']')) x = true := by
    intro x hxm
    simp [h x hxm]
  have hy : (fun c => !(c == ']')) ']' = false := by simp
  have htw := (takeWhile_append_all _ xs ']' rest hx hy).1
  have hdw := (takeWhile_append_all _ xs ']' rest hx hy).2
  rw [bracketCap]
  simp only [htw, hdw]
  rw [if_neg (by simp [hne])]

/-! ## Percent-decode identity on `%`-free subjects -/

theorem pctTokens_no_pct : ∀ cs : List Char, (∀ c ∈ cs, c ≠ '%') →
    pctTokens cs = some (cs.map PctItem.raw) := by
  intro cs
  induction cs with
  | nil => intro _; rfl
  | cons c rest ih =>
    intro h
    have hc : ¬(c = '%') := h c (List.mem_cons_self c rest)
    have step : pctTokens (c :: rest) =
        (pctTokens rest).map (PctItem.raw c :: ·) := by
      rcases rest with _ | ⟨a, _ | ⟨b, r⟩⟩ <;>
        (simp only [pctTokens]; rw [if_neg hc])
    rw [step, ih fun x hx => h x (List.mem_cons_of_mem c hx)]
    rfl

theorem pctDecodeItems_raw : ∀ cs : List Char,
    pctDecodeItems (cs.map PctItem.raw) = some cs := by
  intro cs
  induction cs with
  | nil => rfl
  | cons c rest ih =>
    have step : pctDecodeItems (PctItem.raw c :: rest.map PctItem.raw) =
        (pctDecodeItems (rest.map PctItem.raw)).map (c :: ·) := rfl
    rw [List.map_cons, step, ih]
    rfl

theorem decodeURIComponent_no_pct (s : String) (h : ∀ c ∈ s.data, c ≠ '%') :
    decodeURIComponent s = some s := by
  rw [decodeURIComponent, pctTokens_no_pct s.data h]
  show (pctDecodeItems (s.data.map PctItem.raw)).map (fun cs => String.mk cs) = some s
  rw [pctDecodeItems_raw]
  rfl

/-! ## Colon scanner lemmas: patterns 1 and 3 need a `t` followed by `:` -/

theorem hasTColon_cons (c : Char) (l : List Char) (h : hasTColon l = true) :
    hasTColon (c :: l) = true := by
  cases l with
  | nil => simp [hasTColon] at h
  | cons b r =>
    rw [hasTColon, h]
    simp

theorem hasTColon_suffix_mono (t s : List Char) (hts : t <:+ s)
    (h : hasTColon t = true) : hasTColon s = true := by
  obtain ⟨u, hu⟩ := hts
  subst hu
  induction u with
  | nil => exact h
  | cons c u ih => exact hasTColon_cons _ _ ih

theorem hasTColon_pair : ∀ (u : List Char) (a : Char) (v : List Char),
    ciEq 't' a = true → hasTColon (u ++ a :: ':' :: v) = true := by
  intro u
  induction u with
  | nil =>
    intro a v h
    rw [List.nil_append, hasTColon, h]
    simp
  | cons c u ih =>
    intro a v h
    rw [List.cons_append]
    exact hasTColon_cons _ _ (ih a v h)

theorem hasTColon_colonfree : ∀ ys : List Char, (∀ c ∈ ys, c ≠ ':') →
    hasTColon ys = false := by
  intro ys
  induction ys with
  | nil => intro _; rfl
  | cons a t ih =>
    intro h
    cases t with
    | nil => rfl
    | cons b r =>
      rw [hasTColon]
      have hb : (b == ':') = false := by
        simpa using h b (List.mem_cons_of_mem a (List.mem_cons_self b r))
      rw [hb, Bool.and_false, Bool.false_or]
      exact ih fun c hc => h c (List.mem_cons_of_mem a hc)

theorem hasTColon_append_colonfree : ∀ xs ys : List Char,
    hasTColon xs = false → (∀ c ∈ ys, c ≠ ':') →
    hasTColon (xs ++ ys) = false := by
  intro xs
  induction xs with
  | nil => intro ys _ h2; exact hasTColon_colonfree ys h2
  | cons a t ih =>
    intro ys h1 h2
    cases t with
    | nil =>
      cases ys with
      | nil => rfl
      | cons b r =>
        rw [List.cons_append, List.nil_append, hasTColon]
        have hb : (b == ':') = false := by
          simpa using h2 b (List.mem_cons_self b r)
        rw [hb, Bool.and_false, Bool.false_or]
        exact hasTColon_colonfree (b :: r) h2
    | cons b r =>
      have h1' : hasTColon (a :: b :: r) = false := h1
      rw [hasTColon] at h1'
      have hpair := (Bool.or_eq_false_iff.mp h1').1
      have hrest := (Bool.or_eq_false_iff.mp h1').2
      show hasTColon (a :: b :: (r ++ ys)) = false
      rw [hasTColon, hpair, Bool.false_or]
      exact ih ys hrest h2

/-- A case-insensitive literal ending in `p` consumes a character
`ciEq p`-equal to `p` right before its remainder. -/
theorem matchLitCI_split_last : ∀ (ps : List Char) (p : Char) (s r : List Char),
    matchLitCI (ps ++ [p]) s = some r →
    ∃ w a, s = w ++ a :: r ∧ ciEq p a = true := by
  intro ps
  induction ps with
  | nil =>
    intro p s r h
    cases s with
    | nil => cases h
    | cons c s2 =>
      rw [List.nil_append, matchLitCI] at h
      by_cases hc : ciEq p c = true
      · rw [if_pos hc] at h
        cases h
        exact ⟨[], c, rfl, hc⟩
      · rw [if_neg hc] at h; cases h
  | cons q ps ih =>
    intro p s r h
    cases s with
    | nil => cases h
    | cons c s2 =>
      rw [List.cons_append, matchLitCI] at h
      by_cases hc : ciEq q c = true
      · rw [if_pos hc] at h
        obtain ⟨w, a, hw, ha⟩ := ih p s2 r h
        exact ⟨c :: w, a, by rw [hw]; rfl, ha⟩
      · rw [if_neg hc] at h; cases h

/-- A successful pattern-3 match forces a (case-insensitive) `t` directly
followed by `:` — the end of `request` and the mandatory colon. -/
theorem hereP3_colon (s cap : List Char) (h : hereP3 s = some cap) :
    hasTColon s = true := by
  rw [hereP3] at h
  obtain ⟨s1, h1, h2⟩ := Option.bind_eq_some.mp h
  obtain ⟨s2, h2a, _⟩ := Option.bind_eq_some.mp h2
  rw [afterSupportRequest] at h1
  obtain ⟨a1, ha1, hb⟩ := Option.bind_eq_some.mp h1
  obtain ⟨b1, hb1, hreq⟩ := Option.bind_eq_some.mp hb
  have hs1 : s1 = ':' :: s2 := by
    cases s1 with
    | nil => cases h2a
    | cons c r =>
      rw [matchColon] at h2a
      by_cases hc : c = ':'
      · rw [if_pos hc] at h2a
        cases h2a
        rw [hc]
      · rw [if_neg hc] at h2a; cases h2a
  have hreq2 : matchLitCI ("reques".data ++ ['t']) b1 = some s1 := hreq
  obtain ⟨w, a, hw, ha⟩ := matchLitCI_split_last "reques".data 't' b1 s1 hreq2
  have hb1c : hasTColon b1 = true := by
    rw [hw, hs1]
    exact hasTColon_pair w a s2 ha
  exact hasTColon_suffix_mono b1 s
    ((wsPlus_sfx a1 b1 hb1).trans (matchLitCI_sfx _ s a1 ha1)) hb1c

theorem hereP1_colon (s cap : List Char) (h : hereP1 s = some cap) :
    hasTColon s = true :=
  hasTColon_suffix_mono _ s (applyReplyTag_sfx s) (hereP3_colon (applyReplyTag s) cap h)

/-- Pattern 1 cannot match anywhere in a subject with no
`t`-colon pair. -/
theorem firstMatch_hereP1_none (s : List Char) (h : hasTColon s = false) :
    firstMatch hereP1 s = none := by
  apply firstMatch_none_of_all
  intro t ht
  cases hp : hereP1 t with
  | none => rfl
  | some cap =>
    have := hasTColon_suffix_mono t s ht (hereP1_colon t cap hp)
    rw [this] at h
    cases h

/-! ## Bracket-token lemmas: every pattern needs a `[#…]` -/

theorem wsBracketCap_here5 (s cap rest : List Char)
    (h : wsBracketCap s = some (cap, rest)) :
    ∃ t, t <:+ s ∧ hereP5 t = some cap := by
  rw [wsBracketCap] at h
  split at h
  · next r heq =>
    refine ⟨'[' :: '#' :: r, ?_, ?_⟩
    · rw [← heq]; exact dropWhile_sfx _ _
    · show (bracketCap r).map Prod.fst = some cap
      rw [h]
      rfl
  · cases h

theorem hereP4_token (s cap : List Char) (h : hereP4 s = some cap) :
    ∃ t, t <:+ s ∧ hereP5 t = some cap := by
  rw [hereP4] at h
  obtain ⟨s1, h1, h2⟩ := Option.bind_eq_some.mp h
  obtain ⟨⟨cap2, rest⟩, hw, hcap⟩ := Option.map_eq_some'.mp h2
  cases hcap
  obtain ⟨t, hts, ht5⟩ := wsBracketCap_here5 s1 cap2 rest hw
  exact ⟨t, hts.trans (afterSupportRequest_sfx s s1 h1), ht5⟩

theorem hereP3_token (s cap : List Char) (h : hereP3 s = some cap) :
    ∃ t, t <:+ s ∧ hereP5 t = some cap := by
  rw [hereP3] at h
  obtain ⟨s1, h1, h2⟩ := Option.bind_eq_some.mp h
  obtain ⟨s2, h2a, h2b⟩ := Option.bind_eq_some.mp h2
  obtain ⟨⟨cap2, rest⟩, hw, hcap⟩ := Option.map_eq_some'.mp h2b
  cases hcap
  obtain ⟨t, hts, ht5⟩ := wsBracketCap_here5 s2 cap2 rest hw
  exact ⟨t, (hts.trans (matchColon_sfx s1 s2 h2a)).trans
    (afterSupportRequest_sfx s s1 h1), ht5⟩

theorem hereP1_token (s cap : List Char) (h : hereP1 s = some cap) :
    ∃ t, t <:+ s ∧ hereP5 t = some cap := by
  obtain ⟨t, hts, ht5⟩ := hereP3_token (applyReplyTag s) cap h
  exact ⟨t, hts.trans (applyReplyTag_sfx s), ht5⟩

theorem hereP2_token (s cap : List Char) (h : hereP2 s = some cap) :
    ∃ t, t <:+ s ∧ hereP5 t = some cap := by
  obtain ⟨t, hts, ht5⟩ := hereP4_token (applyReplyTag s) cap h
  exact ⟨t, hts.trans (applyReplyTag_sfx s), ht5⟩

theorem patterns_token : ∀ p ∈ patterns, ∀ (s cap : List Char), p s = some cap →
    ∃ t, t <:+ s ∧ hereP5 t = some cap := by
  intro p hp s cap h
  simp only [patterns, List.mem_cons, List.not_mem_nil, or_false] at hp
  rcases hp with rfl | rfl | rfl | rfl | rfl
  · exact hereP1_token s cap h
  · exact hereP2_token s cap h
  · exact hereP3_token s cap h
  · exact hereP4_token s cap h
  · exact ⟨s, List.suffix_refl s, h⟩

theorem hasBracketToken_false_no_match (s : List Char)
    (hb : hasBracketToken s = false) : ∀ p ∈ patterns, firstMatch p s = none := by
  intro p hp
  cases hfm : firstMatch p s with
  | none => rfl
  | some cap =>
    obtain ⟨t, hts, hpt⟩ := firstMatch_some_suffix p s cap hfm
    obtain ⟨t2, ht2, h5⟩ := patterns_token p hp t cap hpt
    have hnone : firstMatch hereP5 s = none := by
      rw [hasBracketToken] at hb
      cases hx : firstMatch hereP5 s with
      | none => rfl
      | some c2 => rw [hx] at hb; cases hb
    have h5n := firstMatch_eq_none_all hereP5 s hnone t2 (ht2.trans hts)
    rw [h5n] at h5
    cases h5

/-- The extraction loop returns nothing when no pattern produces a capture
that passes the validity rule. -/
theorem firstValidTaskId_eq_none :
    ∀ (ps : List (List Char → Option (List Char))) (s : List Char),
      (∀ p ∈ ps, ∀ cap, firstMatch p s = some cap →
        isValidTaskId (trimChars cap) = false) →
      firstValidTaskId ps s = none := by
  intro ps
  induction ps with
  | nil => intro s _; rfl
  | cons p ps ih =>
    intro s h
    rw [firstValidTaskId]
    cases hm : firstMatch p s with
    | none => exact ih s fun q hq => h q (List.mem_cons_of_mem p hq)
    | some cap =>
      show (if isValidTaskId (trimChars cap) = true
          then some (String.mk (trimChars cap))
          else firstValidTaskId ps s) = none
      rw [h p (List.mem_cons_self p ps) cap hm]
      simp only [Bool.false_eq_true, if_false]
      exact ih s fun q hq => h q (List.mem_cons_of_mem p hq)

/-! ## Claim C4 (corrected) -/

/-- Claim C4, counterexample: the extractor percent-decodes the subject
before matching, so a subject with no `[#…]` substring can still yield an
identifier once its `%5B%23…%5D` escapes decode to `[#…]`. -/
theorem c4_percent_encoded_subject_counterexample :
    hasBracketToken "%5B%23abc%5D".data = false ∧
      extractTaskId "%5B%23abc%5D" = some "abc" := by
  constructor
  · decide
  · decide

/-- Claim C4, amended: when the *percent-decoded* form of the subject (the
raw subject when decoding fails) contains no bracketed `#…` token, the
extractor returns none; likewise, when every pattern's match on that form
fails the validity rule after trimming, the extractor returns none. -/
theorem c4_no_bracket_token_amended (s : String) :
    (hasBracketToken ((decodeURIComponent s).getD s).data = false →
      extractTaskId s = none) ∧
    ((∀ p ∈ patterns, ∀ cap,
        firstMatch p ((decodeURIComponent s).getD s).data = some cap →
        isValidTaskId (trimChars cap) = false) → extractTaskId s = none) := by
  by_cases hs : s = ""
  · subst hs
    exact ⟨fun _ => rfl, fun _ => rfl⟩
  · constructor
    · intro hb
      rw [extractTaskId, if_neg hs]
      show firstValidTaskId patterns ((decodeURIComponent s).getD s).data = none
      refine firstValidTaskId_eq_none patterns _ fun p hp cap hm => ?_
      rw [hasBracketToken_false_no_match _ hb p hp] at hm
      cases hm
    · intro h
      rw [extractTaskId, if_neg hs]
      show firstValidTaskId patterns ((decodeURIComponent s).getD s).data = none
      exact firstValidTaskId_eq_none patterns _ h

theorem c4_no_bracket_token_amended_witness :
    extractTaskId "Quarterly report draft" = none :=
  (c4_no_bracket_token_amended "Quarterly report draft").1 (by decide)

/-! ## Claim C3 (confirmed) -/

/-- Template evaluation at position 0 for pattern 1, empty reply tag. -/
theorem hereP1_tpl1 (t : List Char) :
    hereP1 ("Support request: [#".data ++ t) = (bracketCap t).map Prod.fst := rfl

/-- Template evaluation at position 0 for pattern 1, `Re:` tag. -/
theorem hereP1_tpl2 (t : List Char) :
    hereP1 ("Re: Support request: [#".data ++ t) = (bracketCap t).map Prod.fst := rfl

/-- Template evaluation at position 0 for pattern 1, `Fwd:` tag. -/
theorem hereP1_tpl3 (t : List Char) :
    hereP1 ("Fwd: Support request: [#".data ++ t) = (bracketCap t).map Prod.fst := rfl

/-- Template evaluation at position 0 for pattern 2 (no colon), empty tag. -/
theorem hereP2_tpl1 (t : List Char) :
    hereP2 ("Support request [#".data ++ t) = (bracketCap t).map Prod.fst := rfl

/-- Template evaluation at position 0 for pattern 2 (no colon), `Re:` tag. -/
theorem hereP2_tpl2 (t : List Char) :
    hereP2 ("Re: Support request [#".data ++ t) = (bracketCap t).map Prod.fst := rfl

/-- Template evaluation at position 0 for pattern 2 (no colon), `Fwd:` tag. -/
theorem hereP2_tpl3 (t : List Char) :
    hereP2 ("Fwd: Support request [#".data ++ t) = (bracketCap t).map Prod.fst := rfl

theorem validId_facts (X : String) (hv : isValidTaskId X.data = true) :
    X.data ≠ [] ∧ ∀ c ∈ X.data, isIdChar c = true := by
  rw [isValidTaskId, Bool.and_eq_true, decide_eq_true_eq] at hv
  refine ⟨?_, ?_⟩
  · intro he
    rw [he] at hv
    simp at hv
  · intro c hc
    have h2 := hv.2
    rw [List.all_eq_true] at h2
    exact h2 c hc

/-- On a non-empty `%`-free subject the extractor is the pattern loop on the
raw character data. -/
theorem extractTaskId_eval (s : String) (hs : s ≠ "")
    (hd : ∀ c ∈ s.data, c ≠ '%') :
    extractTaskId s = firstValidTaskId patterns s.data := by
  rw [extractTaskId, if_neg hs]
  show firstValidTaskId patterns ((decodeURIComponent s).getD s).data =
    firstValidTaskId patterns s.data
  rw [decodeURIComponent_no_pct s hd]
  rfl

/-- The loop commits to the first pattern whose (leftmost) capture passes
the validity rule; later patterns are not consulted. -/
theorem firstValidTaskId_cons_valid (p : List Char → Option (List Char))
    (ps : List (List Char → Option (List Char))) (s cap : List Char)
    (hm : firstMatch p s = some cap)
    (hv : isValidTaskId (trimChars cap) = true) :
    firstValidTaskId (p :: ps) s = some (String.mk (trimChars cap)) := by
  rw [firstValidTaskId, hm]
  show (if isValidTaskId (trimChars cap) = true
      then some (String.mk (trimChars cap))
      else firstValidTaskId ps s) = some (String.mk (trimChars cap))
  rw [if_pos hv]

/-- A pattern with no match anywhere falls through to the next pattern. -/
theorem firstValidTaskId_cons_none (p : List Char → Option (List Char))
    (ps : List (List Char → Option (List Char))) (s : List Char)
    (hm : firstMatch p s = none) :
    firstValidTaskId (p :: ps) s = firstValidTaskId ps s := by
  rw [firstValidTaskId, hm]

/-- Extraction on a colon-bearing template subject: pattern 1 matches at
position 0 and wins. -/
theorem extract_colon_template (lit subj X : String)
    (hdata : subj.data = lit.data ++ (X.data ++ [']']))
    (hv : isValidTaskId X.data = true)
    (htpl : ∀ t, hereP1 (lit.data ++ t) = (bracketCap t).map Prod.fst)
    (hlitp : ∀ c ∈ lit.data, c ≠ '%') :
    extractTaskId subj = some X := by
  obtain ⟨hne, hall⟩ := validId_facts X hv
  have hws : ∀ c ∈ X.data, isJsWS c = false :=
    fun c hc => (isIdChar_facts c (hall c hc)).2.2.2
  have hnb : ∀ c ∈ X.data, c ≠ ']' :=
    fun c hc => (isIdChar_facts c (hall c hc)).2.2.1
  have hnp : ∀ c ∈ X.data, c ≠ '%' :=
    fun c hc => (isIdChar_facts c (hall c hc)).1
  have hbc : bracketCap (X.data ++ ']' :: []) = some (X.data, []) :=
    bracketCap_exact X.data [] hne hnb
  have hsne : subj ≠ "" := by
    intro he
    have h0 : subj.data = [] := congrArg String.data he
    rw [hdata] at h0
    exact hne (List.append_eq_nil.mp (List.append_eq_nil.mp h0).2).1
  have hsp : ∀ c ∈ subj.data, c ≠ '%' := by
    rw [hdata]
    intro c hc
    rcases List.mem_append.mp hc with hc | hc
    · exact hlitp c hc
    · rcases List.mem_append.mp hc with hc | hc
      · exact hnp c hc
      · intro he
        subst he
        simp at hc
  rw [extractTaskId_eval subj hsne hsp, hdata]
  have h1 : hereP1 (lit.data ++ (X.data ++ [']'])) = some X.data := by
    rw [htpl, hbc]
    rfl
  have htr : trimChars X.data = X.data := trimChars_id X.data hws
  show firstValidTaskId (hereP1 :: [hereP2, hereP3, hereP4, hereP5])
    (lit.data ++ (X.data ++ [']'])) = some X
  rw [firstValidTaskId_cons_valid hereP1 _ _ _
    (firstMatch_here hereP1 _ _ h1) (by rw [htr]; exact hv), htr]

/-- Extraction on a colon-less template subject: pattern 1 matches nowhere
(the subject has no `t`-colon pair) and pattern 2 wins. -/
theorem extract_nocolon_template (lit subj X : String)
    (hdata : subj.data = lit.data ++ (X.data ++ [']']))
    (hv : isValidTaskId X.data = true)
    (hlitc : hasTColon lit.data = false)
    (htpl : ∀ t, hereP2 (lit.data ++ t) = (bracketCap t).map Prod.fst)
    (hlitp : ∀ c ∈ lit.data, c ≠ '%') :
    extractTaskId subj = some X := by
  obtain ⟨hne, hall⟩ := validId_facts X hv
  have hws : ∀ c ∈ X.data, isJsWS c = false :=
    fun c hc => (isIdChar_facts c (hall c hc)).2.2.2
  have hnb : ∀ c ∈ X.data, c ≠ ']' :=
    fun c hc => (isIdChar_facts c (hall c hc)).2.2.1
  have hnc : ∀ c ∈ X.data, c ≠ ':' :=
    fun c hc => (isIdChar_facts c (hall c hc)).2.1
  have hnp : ∀ c ∈ X.data, c ≠ '%' :=
    fun c hc => (isIdChar_facts c (hall c hc)).1
  have hbc : bracketCap (X.data ++ ']' :: []) = some (X.data, []) :=
    bracketCap_exact X.data [] hne hnb
  have hsne : subj ≠ "" := by
    intro he
    have h0 : subj.data = [] := congrArg String.data he
    rw [hdata] at h0
    exact hne (List.append_eq_nil.mp (List.append_eq_nil.mp h0).2).1
  have hsp : ∀ c ∈ subj.data, c ≠ '%' := by
    rw [hdata]
    intro c hc
    rcases List.mem_append.mp hc with hc | hc
    · exact hlitp c hc
    · rcases List.mem_append.mp hc with hc | hc
      · exact hnp c hc
      · intro he
        subst he
        simp at hc
  have htcl : hasTColon (lit.data ++ (X.data ++ [']'])) = false := by
    refine hasTColon_append_colonfree lit.data _ hlitc ?_
    intro c hc
    rcases List.mem_append.mp hc with hc | hc
    · exact hnc c hc
    · intro he
      subst he
      simp at hc
  rw [extractTaskId_eval subj hsne hsp, hdata]
  have h2 : hereP2 (lit.data ++ (X.data ++ [']'])) = some X.data := by
    rw [htpl, hbc]
    rfl
  have htr : trimChars X.data = X.data := trimChars_id X.data hws
  show firstValidTaskId (hereP1 :: hereP2 :: [hereP3, hereP4, hereP5])
    (lit.data ++ (X.data ++ [']'])) = some X
  rw [firstValidTaskId_cons_none hereP1 _ _ (firstMatch_hereP1_none _ htcl),
    firstValidTaskId_cons_valid hereP2 _ _ _
      (firstMatch_here hereP2 _ _ h2) (by rw [htr]; exact hv), htr]

/-- Claim C3: for every token `X` passing the validity rule and every
subject `tag ++ "Support request" ++ colon ++ " [#" ++ X ++ "]"` with
`tag ∈ {"", "Re: ", "Fwd: "}` and the colon present or absent, the
extractor returns exactly `X`; moreover the first pattern whose leftmost
capture passes the validity rule determines the result, and the remaining
patterns are not consulted. -/
theorem c3_extract_supported_subject_forms :
    (∀ X : String, isValidTaskId X.data = true →
      ∀ tag ∈ (["", "Re: ", "Fwd: "] : List String),
        ∀ colon ∈ ([":", ""] : List String),
          extractTaskId (tag ++ "Support request" ++ colon ++ " [#" ++ X ++ "]") =
            some X) ∧
    (∀ (p : List Char → Option (List Char))
        (ps : List (List Char → Option (List Char))) (s cap : List Char),
      firstMatch p s = some cap → isValidTaskId (trimChars cap) = true →
      firstValidTaskId (p :: ps) s = some (String.mk (trimChars cap))) := by
  constructor
  · intro X hv tag htag colon hcolon
    fin_cases htag <;> fin_cases hcolon
    · exact extract_colon_template "Support request: [#" _ X rfl hv
        hereP1_tpl1 (by decide)
    · exact extract_nocolon_template "Support request [#" _ X rfl hv
        (by decide) hereP2_tpl1 (by decide)
    · exact extract_colon_template "Re: Support request: [#" _ X rfl hv
        hereP1_tpl2 (by decide)
    · exact extract_nocolon_template "Re: Support request [#" _ X rfl hv
        (by decide) hereP2_tpl2 (by decide)
    · exact extract_colon_template "Fwd: Support request: [#" _ X rfl hv
        hereP1_tpl3 (by decide)
    · exact extract_nocolon_template "Fwd: Support request [#" _ X rfl hv
        (by decide) hereP2_tpl3 (by decide)
  · exact fun p ps s cap hm hv => firstValidTaskId_cons_valid p ps s cap hm hv

theorem c3_extract_supported_subject_forms_witness :
    extractTaskId ("Re: " ++ "Support request" ++ ":" ++ " [#" ++ "task-42" ++ "]") =
      some "task-42" :=
  c3_extract_supported_subject_forms.1 "task-42" (by decide) "Re: "
    (by decide) ":" (by decide)
